import Mathlib

/-!
portctl — process-discovery layer, shallow embedding

This file embeds the process-discovery and normalization layer of the
`portctl` repository (Go, package `process`) in Lean 4 and settles the
frozen claims about it.

Embedding conventions:
* Go `int` / `int64` values (PIDs, ports, counts) are modelled as `Int`;
  Go `uint64` arithmetic, where it matters, is done in `Nat` with explicit
  `% 2 ^ 64`.
* Go `float64` / `float32` metric fields (`CPUPercent`, `MemoryMB`) are
  modelled as `ℚ`; the code only ever compares these fields (no float
  arithmetic feeds back into them), so the order structure is what matters.
* Strings are Lean `String`s; the Go standard-library string primitives the
  code calls (`strings.Fields`, `strings.Contains`, `strconv.Atoi`, the
  `:(\d+)` regexp, ...) are modelled character-for-character below for the
  ASCII/Latin-1 range that the tool output in question consists of.
* OS effects (the gopsutil per-PID lookups, `tasklist` name resolution,
  signal delivery) are modelled as explicit oracle parameters; every record
  transformation performed by the repository's own code is translated
  literally.
-/

/-! ## Go standard-library string primitives -/

/-- `unicode.IsSpace` restricted to the Latin-1 range (the only characters
occurring in `lsof`/`netstat`/`tasklist` output): space, `\t`, `\n`, `\v`,
`\f`, `\r`, U+0085 (NEL) and U+00A0 (NBSP). -/
def goIsSpace (c : Char) : Bool :=
  c = ' ' || c = '\t' || c = '\n' || c = Char.ofNat 11 || c = Char.ofNat 12 ||
  c = '\r' || c = Char.ofNat 0x85 || c = Char.ofNat 0xA0

/-- ASCII decimal digit test (`'0' <= c && c <= '9'`, as in `strconv`). -/
def goIsDigit (c : Char) : Bool :=
  '0' ≤ c && c ≤ '9'

/-- Accumulator pass of `strings.Fields`: split around runs of white space,
producing no empty fields. -/
def fieldsAux : List Char → List Char → List (List Char)
  | [], [] => []
  | [], acc => [acc.reverse]
  | c :: cs, acc =>
    if goIsSpace c then
      if acc.isEmpty then fieldsAux cs [] else acc.reverse :: fieldsAux cs []
    else
      fieldsAux cs (c :: acc)

/-- `strings.Fields`. -/
def goFields (s : String) : List String :=
  (fieldsAux s.data []).map String.mk

/-- `strings.HasPrefix`. -/
def goHasPrefix (s pre : String) : Bool :=
  List.isPrefixOf pre.data s.data

/-- Substring search underlying `strings.Contains`. -/
def containsAux (pat : List Char) : List Char → Bool
  | [] => List.isPrefixOf pat []
  | c :: rest => List.isPrefixOf pat (c :: rest) || containsAux pat rest

/-- `strings.Contains`. -/
def goContains (s sub : String) : Bool :=
  containsAux sub.data s.data

/-- `strings.ToLower`, on the ASCII range (tool output is ASCII). -/
def goToLowerChar (c : Char) : Char :=
  if 'A' ≤ c && c ≤ 'Z' then Char.ofNat (c.toNat + 32) else c

/-- `strings.ToLower`. -/
def goToLower (s : String) : String :=
  String.mk (s.data.map goToLowerChar)

/-- `strings.ToUpper`, on the ASCII range. -/
def goToUpperChar (c : Char) : Char :=
  if 'a' ≤ c && c ≤ 'z' then Char.ofNat (c.toNat - 32) else c

/-- `strings.ToUpper`. -/
def goToUpper (s : String) : String :=
  String.mk (s.data.map goToUpperChar)

/-- Value of a non-empty all-digit run, as `strconv` accumulates it. -/
def digitsVal (ds : List Char) : Nat :=
  ds.foldl (fun n c => n * 10 + (c.toNat - '0'.toNat)) 0

/-- `strconv.Atoi` (64-bit `int`): optional single `+`/`-` sign followed by
one or more ASCII digits, rejecting anything else and values outside the
signed 64-bit range (`err != nil` is modelled as `none`). -/
def goAtoi (s : String) : Option Int :=
  match s.data with
  | [] => none
  | c :: rest =>
    let (neg, ds) :=
      if c = '-' then (true, rest)
      else if c = '+' then (false, rest)
      else (false, c :: rest)
    if ds.isEmpty then none
    else if ds.all goIsDigit then
      let v := digitsVal ds
      if neg then
        if v ≤ 2 ^ 63 then some (-(v : Int)) else none
      else
        if v ≤ 2 ^ 63 - 1 then some (v : Int) else none
    else none

/-- Leftmost match of the Go regexp `:(\d+)`: scan left to right for a colon
immediately followed by a digit and return the maximal digit run after it
(`FindStringSubmatch`'s capture group), or `none` when no such match exists. -/
def regexColonDigits : List Char → Option (List Char)
  | [] => none
  | c :: rest =>
    if c = ':' then
      let ds := rest.takeWhile goIsDigit
      if ds.isEmpty then regexColonDigits rest else some ds
    else
      regexColonDigits rest

/-- `strings.Split(s, "->")` on character lists, scanning left to right. -/
def splitArrowAux : List Char → List (List Char)
  | [] => [[]]
  | '-' :: '>' :: rest => [] :: splitArrowAux rest
  | c :: rest =>
    match splitArrowAux rest with
    | [] => [[c]]
    | t :: ts => (c :: t) :: ts

/-- `strings.Split(s, "->")`. -/
def goSplitArrow (s : String) : List String :=
  (splitArrowAux s.data).map String.mk

/-- The characters after the last `:` of a string — the combination of
`strings.LastIndex(s, ":")` and the `s[i+1:]` slice; `none` when the string
contains no colon (`LastIndex` returned `-1`). -/
def afterLastColon : List Char → Option (List Char)
  | [] => none
  | c :: rest =>
    match afterLastColon rest with
    | some r => some r
    | none => if c = ':' then some rest else none

/-- `strings.LastIndex(s, ":")` combined with taking the suffix. -/
def goAfterLastColon (s : String) : Option String :=
  (afterLastColon s.data).map String.mk

/-- `strings.Index(s, "/")` combined with the two slices around the first
`/`: `none` when there is no slash. -/
def splitFirstSlashAux : List Char → Option (List Char × List Char)
  | [] => none
  | c :: rest =>
    if c = '/' then some ([], rest)
    else
      match splitFirstSlashAux rest with
      | some (a, b) => some (c :: a, b)
      | none => none

/-- First-`/` split (`strings.Index` plus slicing), as used on `pid/command`. -/
def goSplitFirstSlash (s : String) : Option (String × String) :=
  (splitFirstSlashAux s.data).map fun p => (String.mk p.1, String.mk p.2)

/-- `strings.Split(output, "\n")` on character lists. -/
def splitLinesAux : List Char → List Char → List (List Char)
  | [], acc => [acc.reverse]
  | c :: cs, acc =>
    if c = '\n' then acc.reverse :: splitLinesAux cs []
    else splitLinesAux cs (c :: acc)

/-- `strings.Split(output, "\n")`. -/
def goSplitNl (s : String) : List String :=
  (splitLinesAux s.data []).map String.mk

/-- `strings.TrimSpace(line) == ""`: the line consists of white space only. -/
def goIsBlank (s : String) : Bool :=
  s.data.all goIsSpace

/-- `dropCR` of `bufio.ScanLines`: strip one trailing `\r`. -/
def dropCR (s : String) : String :=
  match s.data.reverse with
  | '\r' :: rest => String.mk rest.reverse
  | _ => s

/-- The token sequence produced by `bufio.Scanner` with `ScanLines`:
newline-terminated tokens without their terminator, no empty token after a
trailing newline, and a trailing `\r` stripped from each token. -/
def scanLines (s : String) : List String :=
  if s = "" then []
  else
    let ts := goSplitNl s
    let ts := if s.data.getLast? = some '\n' then ts.dropLast else ts
    ts.map dropCR

/-! ## Data model (`Process`, `FilterOptions`) -/

/-- `Process` (process.go): one observed (PID, local-port) binding.
`StartTime` (Go `time.Time`) is modelled as Unix seconds. -/
structure Process where
  PID : Int
  Port : Int
  Command : String
  Protocol : String
  State : String
  User : String
  StartTime : Int
  CPUPercent : ℚ
  MemoryMB : ℚ
  ServiceType : String
  FullCommand : String
  LocalAddr : String
  RemoteAddr : String
deriving Repr, DecidableEq

/-- The zero `Process`, from which parsers populate only the basic fields. -/
def Process.zero : Process :=
  ⟨0, 0, "", "", "", "", 0, 0, 0, "", "", "", ""⟩

instance : Inhabited Process := ⟨Process.zero⟩

/-- `FilterOptions` (process.go). -/
structure FilterOptions where
  Service : String
  User : String
  MemoryLimit : ℚ
  CPULimit : ℚ
deriving Repr, DecidableEq

/-! ## Output parsers (process.go) -/

/-- `parseLsofLine(line, targetPort)`: parse a single line of `lsof` output
into a basic record, or `nil` (here `none`) when the line does not conform. -/
def parseLsofLine (line : String) (targetPort : Int) : Option Process :=
  -- Skip header line
  if goHasPrefix line "COMMAND" then none
  else
    let fields := goFields line
    if fields.length < 9 then none
    else
      -- Extract PID (fields[1])
      match goAtoi (fields.getD 1 "") with
      | none => none
      | some pid =>
        -- Extract port from the NAME field (fields[8]) via the `:(\d+)` regexp
        let nameField := fields.getD 8 ""
        match regexColonDigits nameField.data with
        | none => none
        | some digits =>
          match goAtoi (String.mk digits) with
          | none => none
          | some port =>
            -- If we're looking for a specific port and this isn't it, skip
            if targetPort ≠ 0 ∧ port ≠ targetPort then none
            else
              let protocol := if goContains nameField "UDP" then "udp" else "tcp"
              let addrParts := goSplitArrow nameField
              let localAddr := if addrParts.length ≥ 1 then addrParts.getD 0 "" else ""
              let remoteAddr := if addrParts.length ≥ 2 then addrParts.getD 1 "" else ""
              some { Process.zero with
                PID := pid
                Port := port
                Command := fields.getD 0 ""
                Protocol := protocol
                State := "LISTEN"
                LocalAddr := localAddr
                RemoteAddr := remoteAddr }

/-- `parseNetstatLine(line, targetPort)`: parse a single line of Unix
`netstat` output into a basic record, or `none` when it does not conform. -/
def parseNetstatLine (line : String) (targetPort : Int) : Option Process :=
  let fields := goFields line
  if fields.length < 4 then none
  else
    -- Extract protocol
    let protocol := goToLower (fields.getD 0 "")
    if ¬(goHasPrefix protocol "tcp" ∨ goHasPrefix protocol "udp") then none
    else
      -- Extract local address and port (fields[3], split at the last `:`)
      let localAddr := fields.getD 3 ""
      match goAfterLastColon localAddr with
      | none => none
      | some portStr =>
        match goAtoi portStr with
        | none => none
        | some port =>
          -- If we're looking for a specific port and this isn't it, skip
          if targetPort ≠ 0 ∧ port ≠ targetPort then none
          else
            -- Extract PID/Program name (last field), split at the first `/`
            let pidProgram := fields.getD (fields.length - 1) ""
            match goSplitFirstSlash pidProgram with
            | none => none
            | some (pidStr, command) =>
              match goAtoi pidStr with
              | none => none
              | some pid =>
                let state := if fields.length > 5 then fields.getD 5 "" else "LISTEN"
                let remoteAddr := if fields.length > 4 then fields.getD 4 "" else ""
                some { Process.zero with
                  PID := pid
                  Port := port
                  Command := command
                  Protocol := protocol
                  State := state
                  LocalAddr := localAddr
                  RemoteAddr := remoteAddr }

/-- One iteration of the `parseWindowsOutput` scanner loop on a single line;
`nameOf` is the `getWindowsProcessName` oracle (a separate `tasklist`
invocation, external to this code). `none` means the line was skipped. -/
def parseWindowsLine (nameOf : Int → String) (line : String) (targetPort : Int) :
    Option Process :=
  let fields := goFields line
  if fields.length < 5 then none
  else
    let protocol := goToUpper (fields.getD 0 "")
    if protocol ≠ "TCP" ∧ protocol ≠ "UDP" then none
    else
      -- Parse local address (fields[1], port after the last `:`)
      let localAddr := fields.getD 1 ""
      match goAfterLastColon localAddr with
      | none => none
      | some portStr =>
        match goAtoi portStr with
        | none => none
        | some port =>
          -- If we're looking for a specific port and this isn't it, skip
          if targetPort ≠ 0 ∧ port ≠ targetPort then none
          else
            -- Parse PID (last field)
            match goAtoi (fields.getD (fields.length - 1) "") with
            | none => none
            | some pid =>
              let command := nameOf pid
              let state :=
                if fields.length > 3 ∧ protocol = "TCP" then fields.getD 3 ""
                else "LISTENING"
              let remoteAddr := if fields.length > 2 then fields.getD 2 "" else ""
              some { Process.zero with
                PID := pid
                Port := port
                Command := command
                Protocol := goToLower protocol
                State := state
                LocalAddr := localAddr
                RemoteAddr := remoteAddr }

/-- `parseUnixOutput(output, targetPort)`: split into lines, pick the parser
by whether the whole output contains `COMMAND` (the `lsof` header), skip
blank lines, and drop lines the line parser rejects. -/
def parseUnixOutput (output : String) (targetPort : Int) : List Process :=
  let lines := goSplitNl output
  let isLsof := goContains output "COMMAND"
  lines.filterMap fun line =>
    if goIsBlank line then none
    else if isLsof then parseLsofLine line targetPort
    else parseNetstatLine line targetPort

/-- `parseWindowsOutput(output, targetPort)` over the scanner's lines. -/
def parseWindowsOutput (nameOf : Int → String) (output : String) (targetPort : Int) :
    List Process :=
  (scanLines output).filterMap fun line => parseWindowsLine nameOf line targetPort

/-! ## Service classifier (ports.go `ServiceMap`, process.go `detectServiceType`) -/

/-- `ServiceMap` (pkg/process.go): static table of well-known ports. -/
def serviceMap : List (Int × String) :=
  [(20, "FTP-DATA"), (21, "FTP"), (22, "SSH"), (23, "Telnet"), (25, "SMTP"),
   (53, "DNS"), (80, "HTTP"), (110, "POP3"), (143, "IMAP"), (443, "HTTPS"),
   (993, "IMAPS"), (995, "POP3S"), (1433, "SQL Server"), (1521, "Oracle"),
   (3000, "Development Server"), (3001, "Development Server"), (3306, "MySQL"),
   (5000, "Development Server"), (5432, "PostgreSQL"), (5672, "RabbitMQ"),
   (6379, "Redis"), (8000, "Development Server"), (8080, "HTTP Alt"),
   (8081, "HTTP Alt"), (8888, "Jupyter"), (9000, "Development Server"),
   (9090, "Prometheus"), (11211, "Memcached"), (27017, "MongoDB")]

/-- The Go map lookup `ServiceMap[port]` (keys in `serviceMap` are distinct,
so first-match lookup is the map semantics). -/
def serviceMapLookup (port : Int) : Option String :=
  serviceMap.lookup port

/-- `detectServiceType(port, command)` (process.go): static port table, then
ordered case-insensitive command keyword checks, then port-range fallback. -/
def detectServiceType (port : Int) (command : String) : String :=
  -- Check known service ports
  match serviceMapLookup port with
  | some service => service
  | none =>
    -- Check command patterns
    let command := goToLower command
    if goContains command "node" then "Node.js"
    else if goContains command "python" then "Python"
    else if goContains command "java" then "Java"
    else if goContains command "go" then "Go"
    else if goContains command "ruby" then "Ruby"
    else if goContains command "php" then "PHP"
    else if goContains command "postgres" then "PostgreSQL"
    else if goContains command "mysql" then "MySQL"
    else if goContains command "redis" then "Redis"
    else if goContains command "nginx" then "Nginx"
    else if goContains command "apache" then "Apache"
    else if goContains command "docker" then "Docker"
    else if goContains command "code" then "VS Code"
    else if goContains command "chrome" || goContains command "firefox" then "Browser"
    else
      -- Check port ranges
      if 3000 ≤ port ∧ port ≤ 3999 then "Development"
      else if 8000 ≤ port ∧ port ≤ 8999 then "Development"
      else if 9000 ≤ port ∧ port ≤ 9999 then "Development"
      else if port < 1024 then "System"
      else "Unknown"

/-! ## Metrics enricher (process.go `enhanceProcess`) -/

/-- Oracle for the gopsutil per-PID OS lookups performed by
`enhanceProcess`: `procOk` is whether `process.NewProcessWithContext`
succeeds, and each sub-lookup returns `none` exactly when it errors.
`rss` is `MemoryInfo().RSS` in bytes; `createTimeMs` is `CreateTime()`
in Unix milliseconds. -/
structure EnrichOracle where
  procOk : Int → Bool
  cpu : Int → Option ℚ
  rss : Int → Option Nat
  username : Int → Option String
  createTimeMs : Int → Option Int
  cmdline : Int → Option String

/-- The oracle on which every OS lookup fails (short-lived PID raced away). -/
def failOracle : EnrichOracle :=
  ⟨fun _ => false, fun _ => none, fun _ => none, fun _ => none,
   fun _ => none, fun _ => none⟩

/-- `enhanceProcess(proc)` (process.go): bounds-check the PID against the
signed 32-bit range and return unchanged on failure; otherwise apply the
five independent best-effort lookups (each field assigned only when its
lookup succeeds) and finally derive the service type. -/
def enhanceProcess (o : EnrichOracle) (proc : Process) : Process :=
  if proc.PID < 0 ∨ proc.PID > 2147483647 then proc
  else
    let proc :=
      if o.procOk proc.PID then
        { proc with
          CPUPercent := (o.cpu proc.PID).getD proc.CPUPercent
          MemoryMB :=
            match o.rss proc.PID with
            | some rss => (rss : ℚ) / 1024 / 1024
            | none => proc.MemoryMB
          User := (o.username proc.PID).getD proc.User
          StartTime :=
            match o.createTimeMs proc.PID with
            | some t => Int.tdiv t 1000
            | none => proc.StartTime
          FullCommand := (o.cmdline proc.PID).getD proc.FullCommand }
      else proc
    -- Detect service type
    { proc with ServiceType := detectServiceType proc.Port proc.Command }

/-- `enhanceProcesses(processes)`; `NewProcessManager` sets
`enableMetrics = true`. -/
def enhanceProcesses (enableMetrics : Bool) (o : EnrichOracle) (ps : List Process) :
    List Process :=
  if enableMetrics then ps.map (enhanceProcess o) else ps

/-- `GetProcessesOnPort(ctx, port)` on the Unix path, with the raw command
output supplied explicitly: `getBasicProcesses` → `parseUnixOutput` →
`enhanceProcesses`. -/
def getProcessesOnPortUnix (o : EnrichOracle) (output : String) (port : Int) :
    List Process :=
  enhanceProcesses true o (parseUnixOutput output port)

/-- `GetProcessesOnPort(ctx, port)` on the Windows path, with the raw
`netstat -ano` output and the `tasklist` name oracle supplied explicitly. -/
def getProcessesOnPortWindows (nameOf : Int → String) (o : EnrichOracle)
    (output : String) (port : Int) : List Process :=
  enhanceProcesses true o (parseWindowsOutput nameOf output port)

/-! ## Manager operations: filter, find available ports, kill -/

/-- The conjunction of guards in the `FilterProcesses` loop body: `match`
stays `true` unless one of the four falsifying conditions fires. -/
def matchesFilter (opts : FilterOptions) (proc : Process) : Bool :=
  if opts.Service ≠ "" ∧
      ¬(goContains (goToLower proc.ServiceType) (goToLower opts.Service) ∨
        goContains (goToLower proc.Command) (goToLower opts.Service)) then false
  else if opts.User ≠ "" ∧
      ¬goContains (goToLower proc.User) (goToLower opts.User) then false
  else if 0 < opts.MemoryLimit ∧ proc.MemoryMB ≤ opts.MemoryLimit then false
  else if 0 < opts.CPULimit ∧ proc.CPUPercent ≤ opts.CPULimit then false
  else true

/-- `FilterProcesses(processes, opts)` (process.go). -/
def filterProcesses (ps : List Process) (opts : FilterOptions) : List Process :=
  ps.filter (matchesFilter opts)

/-- The `for port := startPort; port <= endPort && len(available) < count;
port++` loop of `FindAvailablePorts`; `fuel` bounds the iteration count (the
loop advances `port` by one each step, so `endPort - startPort + 1` steps
always suffice). -/
def findAvailLoop (used : Int → Bool) (endPort count : Int) :
    Nat → Int → List Int → List Int
  | 0, _, acc => acc
  | fuel + 1, port, acc =>
    if port ≤ endPort ∧ (acc.length : Int) < count then
      if used port then findAvailLoop used endPort count fuel (port + 1) acc
      else findAvailLoop used endPort count fuel (port + 1) (acc ++ [port])
    else acc

/-- `FindAvailablePorts(ctx, startPort, endPort, count)` (process.go), with
the discovered process list (the `GetAllProcesses` result) supplied
explicitly: build the used-port set, then scan. -/
def findAvailablePorts (ps : List Process) (startPort endPort count : Int) :
    List Int :=
  let usedPorts : Int → Bool := fun p => ps.any fun proc => proc.Port = p
  findAvailLoop usedPorts endPort count (endPort + 1 - startPort).toNat startPort []

/-- Go map insertion `m[k] = v` on an association list: replace the value of
an existing key, else append the new binding. -/
def mapInsert (m : List (Int × Option String)) (k : Int) (v : Option String) :
    List (Int × Option String) :=
  match m with
  | [] => [(k, v)]
  | (k', v') :: rest =>
    if k' = k then (k, v) :: rest else (k', v') :: mapInsert rest k v

/-- Go map lookup `m[k]` (first matching key; keys are unique by
construction). -/
def mapLookup (m : List (Int × Option String)) (k : Int) : Option (Option String) :=
  match m with
  | [] => none
  | (k', v) :: rest => if k' = k then some v else mapLookup rest k

/-- `KillProcesses(ctx, pids, force)` (process.go): one `KillProcess` call
per PID, each result stored under its PID. `kill` is the `KillProcess`
oracle (`taskkill` / signal delivery); `some msg` models a non-nil error. -/
def killProcesses (kill : Int → Bool → Option String) (pids : List Int)
    (force : Bool) : List (Int × Option String) :=
  pids.foldl (fun results pid => mapInsert results pid (kill pid force)) []

/-! ## `sort.Slice` (Go 1.21 `sort/zsortfunc.go` pdqsort)

`SortProcesses` and `GetAllProcesses` sort with `sort.Slice`, which is Go's
pattern-defeating quicksort and is *not* guaranteed stable.  The functions
below transcribe `sort/zsortfunc.go` (Go 1.21); loops are driven by explicit
fuel, always called with enough fuel for the loop's maximal trip count. -/

/-- Read `data[i]` (indices are always in bounds along the algorithm). -/
def aget [Inhabited α] (a : Array α) (i : Int) : α :=
  a.getD i.toNat default

/-- `data.Swap(i, j)`. -/
def aswap [Inhabited α] (a : Array α) (i j : Int) : Array α :=
  let vi := aget a i
  let vj := aget a j
  (a.setD i.toNat vj).setD j.toNat vi

/-- Inner loop of `insertionSort_func`: shift element `j` left while it is
less than its predecessor and `j > lo`. -/
def insertionInner [Inhabited α] (less : α → α → Bool) (lo : Int) :
    Nat → Array α → Int → Array α
  | 0, a, _ => a
  | fuel + 1, a, j =>
    if lo < j ∧ less (aget a j) (aget a (j - 1)) then
      insertionInner less lo fuel (aswap a j (j - 1)) (j - 1)
    else a

/-- Outer loop of `insertionSort_func` over `i = lo+1 .. hi-1`. -/
def insertionOuter [Inhabited α] (less : α → α → Bool) (lo hi : Int) :
    Nat → Array α → Int → Array α
  | 0, a, _ => a
  | fuel + 1, a, i =>
    if i < hi then
      insertionOuter less lo hi fuel (insertionInner less lo (i - lo).toNat a i) (i + 1)
    else a

/-- `insertionSort_func(data, a, b)`. -/
def insertionSortGo [Inhabited α] (less : α → α → Bool) (a : Array α) (lo hi : Int) :
    Array α :=
  insertionOuter less lo hi (hi - lo).toNat a (lo + 1)

/-- `siftDown_func(data, lo=root, hi, first)`. -/
def siftDownGo [Inhabited α] (less : α → α → Bool) (first hi : Int) :
    Nat → Array α → Int → Array α
  | 0, a, _ => a
  | fuel + 1, a, root =>
    let child := 2 * root + 1
    if child ≥ hi then a
    else
      let child :=
        if child + 1 < hi ∧ less (aget a (first + child)) (aget a (first + child + 1)) then
          child + 1
        else child
      if ¬ less (aget a (first + root)) (aget a (first + child)) then a
      else siftDownGo less first hi fuel (aswap a (first + root) (first + child)) child

/-- Heap-construction loop of `heapSort_func`. -/
def heapSortBuild [Inhabited α] (less : α → α → Bool) (first hi : Int) :
    Nat → Array α → Int → Array α
  | 0, a, _ => a
  | fuel + 1, a, i =>
    if 0 ≤ i then
      heapSortBuild less first hi fuel (siftDownGo less first hi (hi.toNat + 1) a i) (i - 1)
    else a

/-- Pop loop of `heapSort_func`. -/
def heapSortPop [Inhabited α] (less : α → α → Bool) (first : Int) :
    Nat → Array α → Int → Array α
  | 0, a, _ => a
  | fuel + 1, a, i =>
    if 0 ≤ i then
      let a := aswap a first (first + i)
      heapSortPop less first fuel (siftDownGo less first i (i.toNat + 1) a 0) (i - 1)
    else a

/-- `heapSort_func(data, a, b)`. -/
def heapSortGo [Inhabited α] (less : α → α → Bool) (arr : Array α) (a b : Int) :
    Array α :=
  let first := a
  let hi := b - a
  let arr := heapSortBuild less first hi (hi.toNat + 1) arr (Int.tdiv (hi - 1) 2)
  heapSortPop less first (hi.toNat + 1) arr (hi - 1)

/-- `reverseRange_func(data, a, b)`. -/
def reverseRangeGo [Inhabited α] : Nat → Array α → Int → Int → Array α
  | 0, a, _, _ => a
  | fuel + 1, a, i, j =>
    if i < j then reverseRangeGo fuel (aswap a i j) (i + 1) (j - 1) else a

/-- `order2_func(data, a, b, &swaps)`. -/
def order2Go [Inhabited α] (less : α → α → Bool) (arr : Array α) (i j : Int)
    (swaps : Nat) : Int × Int × Nat :=
  if less (aget arr j) (aget arr i) then (j, i, swaps + 1) else (i, j, swaps)

/-- `median_func(data, a, b, c, &swaps)`. -/
def medianGo [Inhabited α] (less : α → α → Bool) (arr : Array α) (a b c : Int)
    (swaps : Nat) : Int × Nat :=
  let (a, b, swaps) := order2Go less arr a b swaps
  let (b, _c, swaps) := order2Go less arr b c swaps
  let (_a, b, swaps) := order2Go less arr a b swaps
  (b, swaps)

/-- `medianAdjacent_func(data, a, &swaps)`. -/
def medianAdjacentGo [Inhabited α] (less : α → α → Bool) (arr : Array α) (a : Int)
    (swaps : Nat) : Int × Nat :=
  medianGo less arr (a - 1) a (a + 1) swaps

/-- The three pivot hints of `choosePivot_func`. -/
inductive SortedHint where
  | increasing
  | decreasing
  | unknown
deriving Repr, DecidableEq

/-- `choosePivot_func(data, a, b)`: static pivot below 8 elements,
median-of-three up to 49, Tukey ninther from 50. -/
def choosePivotGo [Inhabited α] (less : α → α → Bool) (arr : Array α) (a b : Int) :
    Int × SortedHint :=
  let l := b - a
  let swaps : Nat := 0
  let i := a + Int.tdiv l 4 * 1
  let j := a + Int.tdiv l 4 * 2
  let k := a + Int.tdiv l 4 * 3
  if 8 ≤ l then
    let (i, j, k, swaps) :=
      if 50 ≤ l then
        let (i, swaps) := medianAdjacentGo less arr i swaps
        let (j, swaps) := medianAdjacentGo less arr j swaps
        let (k, swaps) := medianAdjacentGo less arr k swaps
        (i, j, k, swaps)
      else (i, j, k, swaps)
    let (j, swaps) := medianGo less arr i j k swaps
    if swaps = 0 then (j, .increasing)
    else if swaps = 12 then (j, .decreasing)
    else (j, .unknown)
  else (j, .increasing)

/-- `for i <= j && data.Less(i, a) { i++ }` of `partition_func`. -/
def partAdvI [Inhabited α] (less : α → α → Bool) (arr : Array α) (aIdx j : Int) :
    Nat → Int → Int
  | 0, i => i
  | fuel + 1, i =>
    if i ≤ j ∧ less (aget arr i) (aget arr aIdx) then partAdvI less arr aIdx j fuel (i + 1)
    else i

/-- `for i <= j && !data.Less(j, a) { j-- }` of `partition_func`. -/
def partAdvJ [Inhabited α] (less : α → α → Bool) (arr : Array α) (aIdx i : Int) :
    Nat → Int → Int
  | 0, j => j
  | fuel + 1, j =>
    if i ≤ j ∧ ¬ less (aget arr j) (aget arr aIdx) then partAdvJ less arr aIdx i fuel (j - 1)
    else j

/-- The swap loop of `partition_func`, after the first advance/swap. -/
def partitionLoopGo [Inhabited α] (less : α → α → Bool) (aIdx : Int) (F : Nat) :
    Nat → Array α → Int → Int → Array α × Int × Bool
  | 0, arr, _, j => (aswap arr j aIdx, j, false)
  | fuel + 1, arr, i, j =>
    let i := partAdvI less arr aIdx j F i
    let j := partAdvJ less arr aIdx i F j
    if i > j then (aswap arr j aIdx, j, false)
    else partitionLoopGo less aIdx F fuel (aswap arr i j) (i + 1) (j - 1)

/-- `partition_func(data, a, b, pivot)`: returns the mutated array, the new
pivot position, and whether the range was already partitioned. -/
def partitionGo [Inhabited α] (less : α → α → Bool) (arr : Array α)
    (a b pivot : Int) : Array α × Int × Bool :=
  let F := (b - a).toNat + 2
  let arr := aswap arr a pivot
  let i := a + 1
  let j := b - 1
  let i := partAdvI less arr a j F i
  let j := partAdvJ less arr a i F j
  if i > j then (aswap arr j a, j, true)
  else
    partitionLoopGo less a F F (aswap arr i j) (i + 1) (j - 1)

/-- `for i <= j && !data.Less(a, i) { i++ }` of `partitionEqual_func`. -/
def partEqAdvI [Inhabited α] (less : α → α → Bool) (arr : Array α) (aIdx j : Int) :
    Nat → Int → Int
  | 0, i => i
  | fuel + 1, i =>
    if i ≤ j ∧ ¬ less (aget arr aIdx) (aget arr i) then partEqAdvI less arr aIdx j fuel (i + 1)
    else i

/-- `for i <= j && data.Less(a, j) { j-- }` of `partitionEqual_func`. -/
def partEqAdvJ [Inhabited α] (less : α → α → Bool) (arr : Array α) (aIdx i : Int) :
    Nat → Int → Int
  | 0, j => j
  | fuel + 1, j =>
    if i ≤ j ∧ less (aget arr aIdx) (aget arr j) then partEqAdvJ less arr aIdx i fuel (j - 1)
    else j

/-- The swap loop of `partitionEqual_func`. -/
def partitionEqualLoopGo [Inhabited α] (less : α → α → Bool) (aIdx : Int) (F : Nat) :
    Nat → Array α → Int → Int → Array α × Int
  | 0, arr, i, _ => (arr, i)
  | fuel + 1, arr, i, j =>
    let i := partEqAdvI less arr aIdx j F i
    let j := partEqAdvJ less arr aIdx i F j
    if i > j then (arr, i)
    else partitionEqualLoopGo less aIdx F fuel (aswap arr i j) (i + 1) (j - 1)

/-- `partitionEqual_func(data, a, b, pivot)`. -/
def partitionEqualGo [Inhabited α] (less : α → α → Bool) (arr : Array α)
    (a b pivot : Int) : Array α × Int :=
  let F := (b - a).toNat + 2
  let arr := aswap arr a pivot
  partitionEqualLoopGo less a F F arr (a + 1) (b - 1)

/-- `for i < b && !data.Less(i, i-1) { i++ }` of `partialInsertionSort_func`. -/
def advanceSorted [Inhabited α] (less : α → α → Bool) (arr : Array α) (b : Int) :
    Nat → Int → Int
  | 0, i => i
  | fuel + 1, i =>
    if i < b ∧ ¬ less (aget arr i) (aget arr (i - 1)) then
      advanceSorted less arr b fuel (i + 1)
    else i

/-- Left-shift loop of `partialInsertionSort_func`
(`for j := i - 1; j >= 1; j--`). -/
def shiftLeftLoop [Inhabited α] (less : α → α → Bool) :
    Nat → Array α → Int → Array α
  | 0, arr, _ => arr
  | fuel + 1, arr, j =>
    if j ≥ 1 then
      if ¬ less (aget arr j) (aget arr (j - 1)) then arr
      else shiftLeftLoop less fuel (aswap arr j (j - 1)) (j - 1)
    else arr

/-- Right-shift loop of `partialInsertionSort_func`
(`for j := i + 1; j < b; j++`). -/
def shiftRightLoop [Inhabited α] (less : α → α → Bool) (b : Int) :
    Nat → Array α → Int → Array α
  | 0, arr, _ => arr
  | fuel + 1, arr, j =>
    if j < b then
      if ¬ less (aget arr j) (aget arr (j - 1)) then arr
      else shiftRightLoop less b fuel (aswap arr j (j - 1)) (j + 1)
    else arr

/-- The `maxSteps` loop of `partialInsertionSort_func`. -/
def partialInsertionLoop [Inhabited α] (less : α → α → Bool) (a b : Int) :
    Nat → Array α → Int → Array α × Bool
  | 0, arr, _ => (arr, false)
  | steps + 1, arr, i =>
    let i := advanceSorted less arr b ((b - i).toNat + 1) i
    if i = b then (arr, true)
    else if b - a < 50 then (arr, false)
    else
      let arr := aswap arr i (i - 1)
      let arr :=
        if i - a ≥ 2 then shiftLeftLoop less (i.toNat + 1) arr (i - 1) else arr
      let arr :=
        if b - i ≥ 2 then shiftRightLoop less b ((b - i).toNat + 1) arr (i + 1) else arr
      partialInsertionLoop less a b steps arr i

/-- `partialInsertionSort_func(data, a, b)` (`maxSteps = 5`,
`shortestShifting = 50`). -/
def partialInsertionSortGo [Inhabited α] (less : α → α → Bool) (arr : Array α)
    (a b : Int) : Array α × Bool :=
  partialInsertionLoop less a b 5 arr (a + 1)

/-- `bits.Len` on `Nat`. -/
def goBitsLen (n : Nat) : Nat :=
  if n = 0 then 0 else Nat.log2 n + 1

/-- One step of the `xorshift` generator of `sort`, on `uint64`. -/
def xorshiftNext (x : Nat) : Nat :=
  let x := (x ^^^ (x <<< 13)) % 2 ^ 64
  let x := x ^^^ (x >>> 7)
  (x ^^^ (x <<< 17)) % 2 ^ 64

/-- The three-swap loop of `breakPatterns_func`. -/
def breakPatternsLoop [Inhabited α] (a length idx : Int) (modulus : Nat) :
    Nat → Array α → Nat → Int → Array α
  | 0, arr, _, _ => arr
  | fuel + 1, arr, rand, i =>
    if i < 3 then
      let rand := xorshiftNext rand
      let other : Int := rand &&& (modulus - 1)
      let other := if other ≥ length then other - length else other
      breakPatternsLoop a length idx modulus fuel (aswap arr (idx - 1 + i) (a + other)) rand (i + 1)
    else arr

/-- `breakPatterns_func(data, a, b)`. -/
def breakPatternsGo [Inhabited α] (arr : Array α) (a b : Int) : Array α :=
  let length := b - a
  if length ≥ 8 then
    let rand := length.toNat % 2 ^ 64
    let modulus := 1 <<< goBitsLen length.toNat
    let idx := a + Int.tdiv length 4 * 2 - 1
    breakPatternsLoop a length idx modulus 3 arr rand 0
  else arr

/-- `pdqsort_func(data, a, b, limit)`: the main loop.  `fuel` bounds the
combined count of loop iterations and recursive calls; recursive calls
re-enter with `wasBalanced = wasPartitioned = true` (they are local
variables in Go), while loop continuations carry the updated flags. -/
def pdqsortGo [Inhabited α] (less : α → α → Bool) :
    Nat → Array α → Int → Int → Int → Bool → Bool → Array α
  | 0, arr, _, _, _, _, _ => arr
  | fuel + 1, arr, a, b, limit, wasBalanced, wasPartitioned =>
    let length := b - a
    if length ≤ 12 then insertionSortGo less arr a b
    else if limit = 0 then heapSortGo less arr a b
    else
      let (arr, limit) :=
        if ¬ wasBalanced then (breakPatternsGo arr a b, limit - 1) else (arr, limit)
      let (pivot, hint) := choosePivotGo less arr a b
      let (arr, pivot, hint) :=
        if hint = SortedHint.decreasing then
          (reverseRangeGo ((b - a).toNat + 1) arr a (b - 1), (b - 1) - (pivot - a),
            SortedHint.increasing)
        else (arr, pivot, hint)
      let (arr, done) :=
        if wasBalanced ∧ wasPartitioned ∧ hint = SortedHint.increasing then
          partialInsertionSortGo less arr a b
        else (arr, false)
      if done then arr
      else if 0 < a ∧ ¬ less (aget arr (a - 1)) (aget arr pivot) then
        let (arr, mid) := partitionEqualGo less arr a b pivot
        pdqsortGo less fuel arr mid b limit wasBalanced wasPartitioned
      else
        let (arr, mid, alreadyPartitioned) := partitionGo less arr a b pivot
        let wasPartitioned := alreadyPartitioned
        let leftLen := mid - a
        let rightLen := b - mid
        let balanceThreshold := Int.tdiv length 8
        let wasBalanced := min leftLen rightLen ≥ balanceThreshold
        if leftLen < rightLen then
          let arr := pdqsortGo less fuel arr a mid limit true true
          pdqsortGo less fuel arr (mid + 1) b limit wasBalanced wasPartitioned
        else
          let arr := pdqsortGo less fuel arr (mid + 1) b limit true true
          pdqsortGo less fuel arr a mid limit wasBalanced wasPartitioned

/-- `sort.Slice(x, less)` (Go 1.21): pdqsort with
`limit = bits.Len(uint(length))`. -/
def sortSliceGo [Inhabited α] (less : α → α → Bool) (l : List α) : List α :=
  (pdqsortGo less (l.length + 16) l.toArray 0 (l.length : Int)
    (goBitsLen l.length) true true).toList

/-- `SortProcesses(processes, sortBy)` (process.go): `sort.Slice` with the
field comparator chosen by the lowercased `sortBy` switch. -/
def sortProcesses (ps : List Process) (sortBy : String) : List Process :=
  let sortBy := if sortBy = "" then "port" else sortBy  -- Default sort by port
  sortSliceGo
    (fun p q =>
      let s := goToLower sortBy
      if s = "pid" then decide (p.PID < q.PID)
      else if s = "port" then decide (p.Port < q.Port)
      else if s = "cpu" then decide (p.CPUPercent > q.CPUPercent)  -- Descending
      else if s = "memory" ∨ s = "mem" then decide (p.MemoryMB > q.MemoryMB)  -- Descending
      else if s = "command" ∨ s = "cmd" then decide (p.Command < q.Command)
      else if s = "service" then decide (p.ServiceType < q.ServiceType)
      else if s = "user" then decide (p.User < q.User)
      else decide (p.Port < q.Port))
    ps

/-! ## Helper lemmas -/

/-- A line with fewer than 9 whitespace tokens is dropped by the `lsof`
parser. -/
theorem parseLsofLine_short {line : String} {tp : Int}
    (h : (goFields line).length < 9) : parseLsofLine line tp = none := by
  unfold parseLsofLine
  split
  · rfl
  · simp [h]

/-- A line with fewer than 4 whitespace tokens is dropped by the Unix
`netstat` parser. -/
theorem parseNetstatLine_short {line : String} {tp : Int}
    (h : (goFields line).length < 4) : parseNetstatLine line tp = none := by
  unfold parseNetstatLine
  simp [h]

/-- A line with fewer than 5 whitespace tokens is skipped by the Windows
`netstat` parser. -/
theorem parseWindowsLine_short {nameOf : Int → String} {line : String} {tp : Int}
    (h : (goFields line).length < 5) : parseWindowsLine nameOf line tp = none := by
  unfold parseWindowsLine
  simp [h]

/-- Everything `parseLsofLine` guarantees about a line it accepts: token
count, where PID, port, command and protocol come from, the port filter,
and the hard-coded state. -/
theorem parseLsofLine_some {line : String} {tp : Int} {r : Process}
    (h : parseLsofLine line tp = some r) :
    9 ≤ (goFields line).length ∧
    goAtoi ((goFields line).getD 1 "") = some r.PID ∧
    (∃ ds, regexColonDigits ((goFields line).getD 8 "").data = some ds ∧
      goAtoi (String.mk ds) = some r.Port) ∧
    (tp ≠ 0 → r.Port = tp) ∧
    r.Command = (goFields line).getD 0 "" ∧
    r.Protocol = (if goContains ((goFields line).getD 8 "") "UDP" then "udp" else "tcp") ∧
    r.State = "LISTEN" := by
  simp only [parseLsofLine] at h
  split at h
  · cases h
  · split at h
    · cases h
    · split at h
      · cases h
      · split at h
        · cases h
        · split at h
          · cases h
          · split at h
            · cases h
            · rename_i hfilter
              cases h
              refine ⟨by omega, by assumption, ⟨_, by assumption, by assumption⟩, ?_,
                rfl, rfl, rfl⟩
              intro htp
              rcases not_and_or.mp hfilter with h0 | hp
              · exact absurd (not_not.mp h0) htp
              · exact not_not.mp hp

/-- Everything `parseNetstatLine` guarantees about a line it accepts:
token count, where PID and port come from, and the port filter. -/
theorem parseNetstatLine_some {line : String} {tp : Int} {r : Process}
    (h : parseNetstatLine line tp = some r) :
    4 ≤ (goFields line).length ∧
    (goAfterLastColon ((goFields line).getD 3 "")).bind goAtoi = some r.Port ∧
    (tp ≠ 0 → r.Port = tp) ∧
    (∃ pidStr,
      goSplitFirstSlash ((goFields line).getD ((goFields line).length - 1) "") =
        some (pidStr, r.Command) ∧
      goAtoi pidStr = some r.PID) := by
  simp only [parseNetstatLine] at h
  split at h
  · cases h
  · split at h
    · cases h
    · split at h
      · cases h
      · rename_i _x1 portStr hcolonEq
        split at h
        · cases h
        · rename_i _x2 port hportEq
          split at h
          · cases h
          · rename_i hfilter
            split at h
            · cases h
            · rename_i _x3 pidStr command hslashEq
              split at h
              · cases h
              · rename_i _x4 pid hpidEq
                cases h
                refine ⟨by omega, ?_, ?_, ⟨pidStr, hslashEq, hpidEq⟩⟩
                · rw [hcolonEq]
                  exact hportEq
                · intro htp
                  rcases not_and_or.mp hfilter with h0 | hp
                  · exact absurd (not_not.mp h0) htp
                  · exact not_not.mp hp

/-- Everything `parseWindowsOutput`'s per-line handling guarantees about a
line it accepts: token count, where PID and port come from, and the port
filter. -/
theorem parseWindowsLine_some {nameOf : Int → String} {line : String} {tp : Int}
    {r : Process} (h : parseWindowsLine nameOf line tp = some r) :
    5 ≤ (goFields line).length ∧
    (goAfterLastColon ((goFields line).getD 1 "")).bind goAtoi = some r.Port ∧
    (tp ≠ 0 → r.Port = tp) ∧
    goAtoi ((goFields line).getD ((goFields line).length - 1) "") = some r.PID := by
  simp only [parseWindowsLine] at h
  split at h
  · cases h
  · split at h
    · cases h
    · split at h
      · cases h
      · rename_i _x1 portStr hcolonEq
        split at h
        · cases h
        · rename_i _x2 port hportEq
          split at h
          · cases h
          · rename_i hfilter
            split at h
            · cases h
            · rename_i _x3 pid hpidEq
              cases h
              refine ⟨by omega, ?_, ?_, hpidEq⟩
              · rw [hcolonEq]
                exact hportEq
              · intro htp
                rcases not_and_or.mp hfilter with h0 | hp
                · exact absurd (not_not.mp h0) htp
                · exact not_not.mp hp

/-- Enrichment never changes the port of a record. -/
theorem enhanceProcess_Port (o : EnrichOracle) (p : Process) :
    (enhanceProcess o p).Port = p.Port := by
  simp only [enhanceProcess]
  split
  · rfl
  · split <;> rfl

/-- Enrichment never changes the PID of a record. -/
theorem enhanceProcess_PID (o : EnrichOracle) (p : Process) :
    (enhanceProcess o p).PID = p.PID := by
  simp only [enhanceProcess]
  split
  · rfl
  · split <;> rfl

/-- For a PID inside the signed 32-bit bounds, enrichment always derives the
service type from port and command. -/
theorem enhanceProcess_ServiceType (o : EnrichOracle) (p : Process)
    (h0 : 0 ≤ p.PID) (h1 : p.PID ≤ 2147483647) :
    (enhanceProcess o p).ServiceType = detectServiceType p.Port p.Command := by
  simp only [enhanceProcess]
  split
  · omega
  · split <;> rfl

/-- A lookup in an association list all of whose values are non-empty
returns a non-empty value. -/
theorem lookup_ne_empty {p : Int} {s : String} :
    ∀ (l : List (Int × String)), (∀ x ∈ l, x.2 ≠ "") →
      l.lookup p = some s → s ≠ "" := by
  intro l
  induction l with
  | nil => intro _ h; cases h
  | cons kv rest ih =>
    intro hall h
    rw [List.lookup] at h
    split at h
    · cases h
      exact hall kv (by simp)
    · exact ih (fun x hx => hall x (List.mem_cons_of_mem kv hx)) h


/-- An `if` between two non-empty strings is non-empty. -/
theorem ite_ne_empty {c : Prop} [Decidable c] {a b : String}
    (ha : a ≠ "") (hb : b ≠ "") : (if c then a else b) ≠ "" := by
  split
  · exact ha
  · exact hb

/-- The service classifier never yields the empty string. -/
theorem detectServiceType_ne_empty (port : Int) (command : String) :
    detectServiceType port command ≠ "" := by
  have hmap : ∀ x ∈ serviceMap, x.2 ≠ "" := by decide
  simp only [detectServiceType]
  split
  · rename_i s hs
    exact lookup_ne_empty serviceMap hmap hs
  · repeat' apply ite_ne_empty
    all_goals decide

theorem regexColonDigits_digits {l ds : List Char}
    (h : regexColonDigits l = some ds) : ds ≠ [] ∧ ds.all goIsDigit = true := by
  induction l with
  | nil => cases h
  | cons c rest ih =>
    simp only [regexColonDigits] at h
    split at h
    · split at h
      · exact ih h
      · cases h
        rename_i hne
        refine ⟨by simpa [List.isEmpty_iff] using hne, ?_⟩
        simp only [List.all_eq_true]
        exact fun x hx => List.mem_takeWhile_imp hx
    · exact ih h

theorem goAtoi_digits_nonneg {ds : List Char} {v : Int}
    (hall : ds.all goIsDigit = true) (hne : ds ≠ [])
    (h : goAtoi (String.mk ds) = some v) : 0 ≤ v := by
  match ds, hne with
  | c :: rest, _ =>
    have hc : goIsDigit c = true := by
      simp only [List.all_cons, Bool.and_eq_true] at hall
      exact hall.1
    have hcm : c ≠ '-' := by rintro rfl; exact absurd hc (by decide)
    have hcp : c ≠ '+' := by rintro rfl; exact absurd hc (by decide)
    simp only [goAtoi, if_neg hcm, if_neg hcp, List.isEmpty_cons, hall,
      Bool.false_eq_true, if_false, if_true, ite_true, ite_false] at h
    split at h
    · cases h
      exact Int.ofNat_nonneg _
    · cases h

/-! ## Claim theorems -/

/-- **C1**: for every target port `P > 0`, every record returned by
`GetProcessesOnPort(P)` has port equal to `P`: each of the three parsers
(lsof, Unix netstat, Windows netstat) applies a client-side equality filter
against the target port, so a parsed line whose local port differs from `P`
yields no record; the enrichment stage preserves the port. -/
theorem c1_port_filter :
    (∀ (targetPort : Int), 0 < targetPort → ∀ (line : String) (r : Process),
      parseLsofLine line targetPort = some r → r.Port = targetPort) ∧
    (∀ (targetPort : Int), 0 < targetPort → ∀ (line : String) (r : Process),
      parseNetstatLine line targetPort = some r → r.Port = targetPort) ∧
    (∀ (targetPort : Int), 0 < targetPort →
      ∀ (nameOf : Int → String) (line : String) (r : Process),
      parseWindowsLine nameOf line targetPort = some r → r.Port = targetPort) ∧
    (∀ (o : EnrichOracle) (output : String) (targetPort : Int), 0 < targetPort →
      ∀ r ∈ getProcessesOnPortUnix o output targetPort, r.Port = targetPort) ∧
    (∀ (nameOf : Int → String) (o : EnrichOracle) (output : String) (targetPort : Int),
      0 < targetPort → ∀ r ∈ getProcessesOnPortWindows nameOf o output targetPort,
      r.Port = targetPort) := by
  have hl : ∀ (targetPort : Int), 0 < targetPort → ∀ (line : String) (r : Process),
      parseLsofLine line targetPort = some r → r.Port = targetPort :=
    fun tp htp _line _r h => (parseLsofLine_some h).2.2.2.1 (by omega)
  have hn : ∀ (targetPort : Int), 0 < targetPort → ∀ (line : String) (r : Process),
      parseNetstatLine line targetPort = some r → r.Port = targetPort :=
    fun tp htp _line _r h => (parseNetstatLine_some h).2.2.1 (by omega)
  have hw : ∀ (targetPort : Int), 0 < targetPort →
      ∀ (nameOf : Int → String) (line : String) (r : Process),
      parseWindowsLine nameOf line targetPort = some r → r.Port = targetPort :=
    fun tp htp _nameOf _line _r h => (parseWindowsLine_some h).2.2.1 (by omega)
  refine ⟨hl, hn, hw, ?_, ?_⟩
  · intro o output tp htp r hr
    simp only [getProcessesOnPortUnix, enhanceProcesses, if_true, ite_true] at hr
    rcases List.mem_map.mp hr with ⟨r', hr', rfl⟩
    rw [enhanceProcess_Port]
    simp only [parseUnixOutput] at hr'
    rcases List.mem_filterMap.mp hr' with ⟨line, _hline, hparse⟩
    split at hparse
    · cases hparse
    · split at hparse
      · exact hl tp htp line r' hparse
      · exact hn tp htp line r' hparse
  · intro nameOf o output tp htp r hr
    simp only [getProcessesOnPortWindows, enhanceProcesses, if_true, ite_true] at hr
    rcases List.mem_map.mp hr with ⟨r', hr', rfl⟩
    rw [enhanceProcess_Port]
    simp only [parseWindowsOutput] at hr'
    rcases List.mem_filterMap.mp hr' with ⟨line, _hline, hparse⟩
    exact hw tp htp nameOf line r' hparse

/-- Witness for C1 at the repository's own test line: target port 8080,
`lsof` output with one matching record. -/
theorem c1_port_filter_witness :
    (0 : Int) < 8080 ∧
    (∀ r ∈ getProcessesOnPortUnix failOracle
      "COMMAND   PID USER   FD   TYPE DEVICE SIZE/OFF NODE NAME\nnode      12345 user   23u  IPv4 0x1234567890      0t0  TCP *:8080 (LISTEN)"
      8080, r.Port = 8080) ∧
    (getProcessesOnPortUnix failOracle
      "COMMAND   PID USER   FD   TYPE DEVICE SIZE/OFF NODE NAME\nnode      12345 user   23u  IPv4 0x1234567890      0t0  TCP *:8080 (LISTEN)"
      8080).map Process.Port = [8080] :=
  ⟨by decide,
   c1_port_filter.2.2.2.1 failOracle
     "COMMAND   PID USER   FD   TYPE DEVICE SIZE/OFF NODE NAME\nnode      12345 user   23u  IPv4 0x1234567890      0t0  TCP *:8080 (LISTEN)"
     8080 (by decide),
   by rfl⟩

/-- **C10**: every record produced by the lsof parser has connection state
exactly `"LISTEN"`, regardless of the line's actual state column; an
ESTABLISHED-connection line still yields state `"LISTEN"`, with the remote
address taken from the part of the name token after `"->"`. -/
theorem c10_lsof_state_listen :
    (∀ (line : String) (targetPort : Int) (r : Process),
      parseLsofLine line targetPort = some r → r.State = "LISTEN") ∧
    parseLsofLine
      "node 123 user 23u IPv4 0xabc 0t0 TCP 10.0.0.1:52000->93.184.216.34:443 (ESTABLISHED)"
      0 =
      some { Process.zero with
              PID := 123, Port := 52000, Command := "node",
              Protocol := "tcp", State := "LISTEN", LocalAddr := "10.0.0.1:52000",
              RemoteAddr := "93.184.216.34:443" } :=
  ⟨fun _line _tp _r h => (parseLsofLine_some h).2.2.2.2.2.2, by rfl⟩

/-- Witness for C10: the established-connection record of the theorem's
second conjunct indeed carries state `"LISTEN"`. -/
theorem c10_lsof_state_listen_witness :
    ({ Process.zero with
        PID := 123, Port := 52000, Command := "node",
        Protocol := "tcp", State := "LISTEN", LocalAddr := "10.0.0.1:52000",
        RemoteAddr := "93.184.216.34:443" } : Process).State = "LISTEN" :=
  c10_lsof_state_listen.1
    "node 123 user 23u IPv4 0xabc 0t0 TCP 10.0.0.1:52000->93.184.216.34:443 (ESTABLISHED)"
    0 _ c10_lsof_state_listen.2

/-- The port-extraction rule as the spec words it: the digits following the
final colon of the local-address part (the part before `"->"`) of the
network-name token.  Modelled from the spec for comparison with the
code's leftmost-regexp-match behaviour. -/
def specLastColonPort (nameField : String) : Option Int :=
  match goAfterLastColon ((goSplitArrow nameField).getD 0 "") with
  | none => none
  | some s => goAtoi s

/-- **C5, counterexample**: on the IPv6 name token `[::1]:8080` the code's
`:(\d+)` regexp matches at the first colon that is followed by a digit and
yields port 1, while the digits following the final colon are 8080 — so the
parsed port is *not* the digits after the final colon. -/
theorem c5_counterexample :
    (parseLsofLine "node 123 user 23u IPv6 0xabc 0t0 TCP [::1]:8080 (LISTEN)" 0).map
      Process.Port = some 1 ∧
    specLastColonPort "[::1]:8080" = some 8080 ∧
    (parseLsofLine "node 123 user 23u IPv6 0xabc 0t0 TCP [::1]:8080 (LISTEN)" 0).map
      Process.Port ≠ specLastColonPort "[::1]:8080" :=
  ⟨by rfl, by rfl, by decide⟩

/-- **C5, amended**: for every lsof data line with at least 9 whitespace
tokens the parser takes PID from token 2, the command from token 1, the
protocol from a `UDP` substring test on token 9, and the port from the
digits following the *leftmost* colon-immediately-followed-by-a-digit in
token 9 (the leftmost match of the `:(\d+)` regexp) — which equals the
digits after the final colon only when no earlier colon is followed by a
digit; lines with fewer than 9 tokens are dropped. -/
theorem c5_amended :
    (∀ (line : String) (targetPort : Int), (goFields line).length < 9 →
      parseLsofLine line targetPort = none) ∧
    (∀ (line : String) (targetPort : Int) (r : Process),
      parseLsofLine line targetPort = some r →
      goAtoi ((goFields line).getD 1 "") = some r.PID ∧
      (regexColonDigits ((goFields line).getD 8 "").data).bind
        (fun ds => goAtoi (String.mk ds)) = some r.Port ∧
      r.Command = (goFields line).getD 0 "" ∧
      r.Protocol =
        (if goContains ((goFields line).getD 8 "") "UDP" then "udp" else "tcp")) := by
  constructor
  · intro line tp h
    exact parseLsofLine_short h
  · intro line tp r h
    obtain ⟨_, hpid, ⟨ds, hds, hport⟩, _, hcmd, hproto, _⟩ := parseLsofLine_some h
    refine ⟨hpid, ?_, hcmd, hproto⟩
    rw [hds]
    exact hport

/-- Witness for C5 (amended): a two-token line is dropped, and the
repository's own test line is parsed with PID from token 2. -/
theorem c5_amended_witness :
    ((goFields "ab cd").length < 9 ∧ parseLsofLine "ab cd" 0 = none) ∧
    (goAtoi ((goFields
      "node      12345 user   23u  IPv4 0x1234567890      0t0  TCP *:8080 (LISTEN)").getD 1 "") =
      some ({ Process.zero with
              PID := 12345, Port := 8080, Command := "node",
              Protocol := "tcp", State := "LISTEN",
              LocalAddr := "*:8080" } : Process).PID) :=
  ⟨⟨by decide, c5_amended.1 "ab cd" 0 (by decide)⟩,
   (c5_amended.2
     "node      12345 user   23u  IPv4 0x1234567890      0t0  TCP *:8080 (LISTEN)"
     0 _ (by rfl)).1⟩

/-- **C2, counterexample**: the parsers perform no range validation, so a
`netstat` line carrying PID 0 and local port 0 is surfaced by
`GetProcessesOnPort` as a record with `PID = 0` and `port = 0`, violating
`PID > 0` and `port ∈ [1, 65535]`. -/
theorem c2_counterexample :
    (getProcessesOnPortUnix failOracle
      "tcp 0 0 0.0.0.0:0 0.0.0.0:* LISTEN 0/kernel" 0).map
      (fun r => (r.PID, r.Port)) = [(0, 0)] ∧
    ¬ (0 : Int) < 0 :=
  ⟨by rfl, by decide⟩

/-- **C2, amended**: input lines that fail to parse produce no record at all
(in particular, lines with too few whitespace tokens are dropped by every
parser), but surfaced records carry the PID and port integers of the line
without any range validation — of the invariant only `port ≥ 0` holds (for
the lsof parser, whose port comes from an unsigned digit run), while
`PID > 0` and `port ∈ [1, 65535]` can both be violated. -/
theorem c2_amended :
    (∀ (line : String) (targetPort : Int), (goFields line).length < 9 →
      parseLsofLine line targetPort = none) ∧
    (∀ (line : String) (targetPort : Int), (goFields line).length < 4 →
      parseNetstatLine line targetPort = none) ∧
    (∀ (nameOf : Int → String) (line : String) (targetPort : Int),
      (goFields line).length < 5 → parseWindowsLine nameOf line targetPort = none) ∧
    (∀ (line : String) (targetPort : Int) (r : Process),
      parseLsofLine line targetPort = some r → 0 ≤ r.Port) := by
  refine ⟨fun _ _ h => parseLsofLine_short h, fun _ _ h => parseNetstatLine_short h,
    fun _ _ _ h => parseWindowsLine_short h, ?_⟩
  intro line tp r h
  obtain ⟨_, _, ⟨ds, hds, hport⟩, _, _, _, _⟩ := parseLsofLine_some h
  obtain ⟨hne, hall⟩ := regexColonDigits_digits hds
  exact goAtoi_digits_nonneg hall hne hport

/-- Witness for C2 (amended): a two-token line is dropped by the netstat
parser, and the lsof test line yields a non-negative port. -/
theorem c2_amended_witness :
    ((goFields "tcp 0").length < 4 ∧ parseNetstatLine "tcp 0" 0 = none) ∧
    (0 : Int) ≤ ({ Process.zero with
      PID := 12345, Port := 8080, Command := "node", Protocol := "tcp",
      State := "LISTEN", LocalAddr := "*:8080" } : Process).Port :=
  ⟨⟨by decide, c2_amended.2.1 "tcp 0" 0 (by decide)⟩,
   c2_amended.2.2.2
     "node      12345 user   23u  IPv4 0x1234567890      0t0  TCP *:8080 (LISTEN)"
     0 _ (by rfl)⟩

/-- **C3, counterexample**: a record whose PID exceeds the signed 32-bit
bound skips enrichment entirely — including service-type classification —
so `GetProcessesOnPort` surfaces it with an *empty* service type. -/
theorem c3_counterexample :
    (getProcessesOnPortUnix failOracle
      "tcp 0 0 0.0.0.0:80 0.0.0.0:* LISTEN 2147483648/svc" 0).map
      Process.ServiceType = [""] := by
  rfl

/-- **C3, amended**: the service type of a record surfaced by a discovery
operation is non-empty *provided its PID lies within the signed 32-bit
bounds* `0 ≤ PID ≤ 2147483647` checked by `enhanceProcess`; inside those
bounds classification always runs and never yields the empty string, for
every port and command. -/
theorem c3_amended :
    (∀ (o : EnrichOracle) (p : Process), 0 ≤ p.PID → p.PID ≤ 2147483647 →
      (enhanceProcess o p).ServiceType ≠ "") ∧
    (∀ (o : EnrichOracle) (output : String) (targetPort : Int),
      ∀ r ∈ getProcessesOnPortUnix o output targetPort,
        0 ≤ r.PID → r.PID ≤ 2147483647 → r.ServiceType ≠ "") := by
  have hcore : ∀ (o : EnrichOracle) (p : Process), 0 ≤ p.PID → p.PID ≤ 2147483647 →
      (enhanceProcess o p).ServiceType ≠ "" := by
    intro o p h0 h1
    rw [enhanceProcess_ServiceType o p h0 h1]
    exact detectServiceType_ne_empty p.Port p.Command
  refine ⟨hcore, ?_⟩
  intro o output tp r hr
  simp only [getProcessesOnPortUnix, enhanceProcesses, if_true, ite_true] at hr
  rcases List.mem_map.mp hr with ⟨r', _hr', rfl⟩
  rw [enhanceProcess_PID]
  intro h0 h1
  exact hcore o r' h0 h1

/-- Witness for C3 (amended): the zero record (PID 0) is classified after
enrichment and its service type is non-empty. -/
theorem c3_amended_witness :
    (0 : Int) ≤ Process.zero.PID ∧ Process.zero.PID ≤ 2147483647 ∧
    (enhanceProcess failOracle Process.zero).ServiceType ≠ "" :=
  ⟨by decide, by decide, c3_amended.1 failOracle Process.zero (by decide) (by decide)⟩

/-- The spec's stage-2 table: a fixed ordered list of keyword groups and
their labels, first match wins (`chrome`/`firefox` share one label).
Modelled from the spec for comparison with the code. -/
def serviceKeywordTable : List (List String × String) :=
  [(["node"], "Node.js"), (["python"], "Python"), (["java"], "Java"),
   (["go"], "Go"), (["ruby"], "Ruby"), (["php"], "PHP"),
   (["postgres"], "PostgreSQL"), (["mysql"], "MySQL"), (["redis"], "Redis"),
   (["nginx"], "Nginx"), (["apache"], "Apache"), (["docker"], "Docker"),
   (["code"], "VS Code"), (["chrome", "firefox"], "Browser")]

/-- The spec's three-stage reference classifier: exact well-known-port
lookup, then the first keyword-group match of the lowercased command, then
the port-range heuristic.  Modelled from the spec for comparison with the
code's `detectServiceType`. -/
def refServiceClassifier (port : Int) (command : String) : String :=
  match serviceMapLookup port with
  | some s => s
  | none =>
    let lc := goToLower command
    match serviceKeywordTable.find? (fun e => e.1.any fun kw => goContains lc kw) with
    | some e => e.2
    | none =>
      if (3000 ≤ port ∧ port ≤ 3999) ∨ (8000 ≤ port ∧ port ≤ 8999) ∨
          (9000 ≤ port ∧ port ≤ 9999) then "Development"
      else if port < 1024 then "System"
      else "Unknown"

/-- **C4**: `detectServiceType(port, command)` equals the three-stage
reference classifier for every port and command; in particular port 5432
yields `"PostgreSQL"` for every command, port 59999 with command
`node-server` yields `"Node.js"`, and port 59999 with command `unknownbin`
yields `"Unknown"`. -/
theorem c4_service_classifier :
    (∀ (port : Int) (command : String),
      detectServiceType port command = refServiceClassifier port command) ∧
    (∀ command : String, detectServiceType 5432 command = "PostgreSQL") ∧
    detectServiceType 59999 "node-server" = "Node.js" ∧
    detectServiceType 59999 "unknownbin" = "Unknown" := by
  refine ⟨?_, fun command => rfl, by rfl, by rfl⟩
  intro port command
  simp only [detectServiceType, refServiceClassifier, serviceKeywordTable]
  cases hm : serviceMapLookup port with
  | some s => simp [hm]
  | none =>
    simp only [hm]
    by_cases h1 : goContains (goToLower command) "node" = true
    · simp [List.find?, h1]
    by_cases h2 : goContains (goToLower command) "python" = true
    · simp [List.find?, h1, h2]
    by_cases h3 : goContains (goToLower command) "java" = true
    · simp [List.find?, h1, h2, h3]
    by_cases h4 : goContains (goToLower command) "go" = true
    · simp [List.find?, h1, h2, h3, h4]
    by_cases h5 : goContains (goToLower command) "ruby" = true
    · simp [List.find?, h1, h2, h3, h4, h5]
    by_cases h6 : goContains (goToLower command) "php" = true
    · simp [List.find?, h1, h2, h3, h4, h5, h6]
    by_cases h7 : goContains (goToLower command) "postgres" = true
    · simp [List.find?, h1, h2, h3, h4, h5, h6, h7]
    by_cases h8 : goContains (goToLower command) "mysql" = true
    · simp [List.find?, h1, h2, h3, h4, h5, h6, h7, h8]
    by_cases h9 : goContains (goToLower command) "redis" = true
    · simp [List.find?, h1, h2, h3, h4, h5, h6, h7, h8, h9]
    by_cases h10 : goContains (goToLower command) "nginx" = true
    · simp [List.find?, h1, h2, h3, h4, h5, h6, h7, h8, h9, h10]
    by_cases h11 : goContains (goToLower command) "apache" = true
    · simp [List.find?, h1, h2, h3, h4, h5, h6, h7, h8, h9, h10, h11]
    by_cases h12 : goContains (goToLower command) "docker" = true
    · simp [List.find?, h1, h2, h3, h4, h5, h6, h7, h8, h9, h10, h11, h12]
    by_cases h13 : goContains (goToLower command) "code" = true
    · simp [List.find?, h1, h2, h3, h4, h5, h6, h7, h8, h9, h10, h11, h12, h13]
    by_cases h14 : (goContains (goToLower command) "chrome" || goContains (goToLower command) "firefox") = true
    · simp [List.find?, h1, h2, h3, h4, h5, h6, h7, h8, h9, h10, h11, h12, h13, h14]
    simp [List.find?, h1, h2, h3, h4, h5, h6, h7, h8, h9, h10, h11, h12, h13, h14]
    split_ifs <;> first | rfl | omega

/-- `n` consecutive integers starting at `x` (spec-side description of the
linear scan). -/
def intRangeAux : Nat → Int → List Int
  | 0, _ => []
  | n + 1, x => x :: intRangeAux n (x + 1)

/-- The integers from `a` to `b` inclusive (empty when `b < a`). -/
def intRange (a b : Int) : List Int :=
  intRangeAux (b + 1 - a).toNat a

theorem mem_intRangeAux {n : Nat} {x y : Int} (h : y ∈ intRangeAux n x) : x ≤ y := by
  induction n generalizing x with
  | zero => cases h
  | succ n ih =>
    simp only [intRangeAux, List.mem_cons] at h
    rcases h with rfl | h
    · exact le_refl y
    · have := ih h
      omega

theorem intRangeAux_pairwise (n : Nat) :
    ∀ x : Int, List.Pairwise (· < ·) (intRangeAux n x) := by
  induction n with
  | zero => intro x; exact List.Pairwise.nil
  | succ n ih =>
    intro x
    refine List.Pairwise.cons (fun y hy => ?_) (ih (x + 1))
    have := mem_intRangeAux hy
    omega

/-- Characterization of the `FindAvailablePorts` scan loop: with exactly
enough fuel for the range, it appends to the accumulator the first
`count − |acc|` unused ports of the range, in order. -/
theorem findAvailLoop_eq (used : Int → Bool) (endPort count : Int) :
    ∀ (fuel : Nat) (port : Int) (acc : List Int),
      fuel = (endPort + 1 - port).toNat →
      findAvailLoop used endPort count fuel port acc =
        acc ++ ((intRangeAux fuel port).filter (fun p => !used p)).take
          (count - acc.length).toNat := by
  intro fuel
  induction fuel with
  | zero => intro port acc _; simp [findAvailLoop, intRangeAux]
  | succ n ih =>
    intro port acc hf
    have hple : port ≤ endPort := by omega
    have hn : n = (endPort + 1 - (port + 1)).toNat := by omega
    simp only [findAvailLoop, intRangeAux]
    by_cases hlen : (acc.length : Int) < count
    · rw [if_pos ⟨hple, hlen⟩]
      by_cases hu : used port = true
      · rw [if_pos hu, ih (port + 1) acc hn]
        simp [List.filter_cons, hu]
      · rw [if_neg hu, ih (port + 1) (acc ++ [port]) hn]
        have hu' : used port = false := by simpa using hu
        have htk : (count - acc.length).toNat = (count - (acc.length + 1)).toNat + 1 := by
          omega
        simp only [List.filter_cons, hu', Bool.not_false, if_true, ite_true, htk,
          List.take_succ_cons, List.length_append, List.length_cons, List.length_nil,
          List.append_assoc, List.singleton_append]
        push_cast
        ring_nf
    · rw [if_neg (by tauto)]
      have h0 : (count - acc.length).toNat = 0 := by omega
      simp [h0]

/-- **C6**: for `start < end` and `count ≥ 0` and any used-port set obtained
from discovery, `FindAvailablePorts(start, end, count)` returns, in strictly
ascending order, the first up-to-`count` ports of the linear scan from
`start` to `end` that are not in use. -/
theorem c6_find_available_ports :
    ∀ (ps : List Process) (startPort endPort count : Int),
      startPort < endPort → 0 ≤ count →
      findAvailablePorts ps startPort endPort count =
        ((intRange startPort endPort).filter
          (fun p => !(ps.any fun proc => proc.Port = p))).take count.toNat ∧
      List.Pairwise (· < ·) (findAvailablePorts ps startPort endPort count) := by
  intro ps startPort endPort count _hse _hc
  have heq := findAvailLoop_eq (fun p => ps.any fun proc => proc.Port = p) endPort count
    (endPort + 1 - startPort).toNat startPort [] rfl
  have hmain : findAvailablePorts ps startPort endPort count =
      ((intRange startPort endPort).filter
        (fun p => !(ps.any fun proc => proc.Port = p))).take count.toNat := by
    simp only [findAvailablePorts, intRange]
    simpa using heq
  refine ⟨hmain, ?_⟩
  rw [hmain]
  exact ((intRangeAux_pairwise _ startPort).sublist
    ((List.take_sublist _ _).trans (List.filter_sublist _)))

/-- Witness for C6, at the spec's own example: with ports 3000, 3002 and
3005 in use, `FindAvailablePorts(3000, 3010, 5)` returns
`[3001, 3003, 3004, 3006, 3007]`. -/
theorem c6_find_available_ports_witness :
    (3000 : Int) < 3010 ∧ (0 : Int) ≤ 5 ∧
    (findAvailablePorts
      [{ Process.zero with Port := 3000 }, { Process.zero with Port := 3002 },
       { Process.zero with Port := 3005 }] 3000 3010 5 =
      ((intRange 3000 3010).filter
        (fun p => !([{ Process.zero with Port := 3000 },
          { Process.zero with Port := 3002 },
          { Process.zero with Port := 3005 }].any fun proc => proc.Port = p))).take
        (5 : Int).toNat ∧
      List.Pairwise (· < ·) (findAvailablePorts
        [{ Process.zero with Port := 3000 }, { Process.zero with Port := 3002 },
         { Process.zero with Port := 3005 }] 3000 3010 5)) ∧
    findAvailablePorts
      [{ Process.zero with Port := 3000 }, { Process.zero with Port := 3002 },
       { Process.zero with Port := 3005 }] 3000 3010 5 = [3001, 3003, 3004, 3006, 3007] :=
  ⟨by decide, by decide,
   c6_find_available_ports
     [{ Process.zero with Port := 3000 }, { Process.zero with Port := 3002 },
      { Process.zero with Port := 3005 }] 3000 3010 5 (by decide) (by decide),
   by rfl⟩

/-- Thirteen records distinguished by PID, with equal ports scattered so
that the partition step of `sort.Slice`'s pdqsort reorders equal-key
records. -/
def c7SortInput : List Process :=
  [{ Process.zero with Port := 5, PID := 0 }, { Process.zero with Port := 1, PID := 1 },
   { Process.zero with Port := 5, PID := 2 }, { Process.zero with Port := 1, PID := 3 },
   { Process.zero with Port := 5, PID := 4 }, { Process.zero with Port := 2, PID := 5 },
   { Process.zero with Port := 2, PID := 6 }, { Process.zero with Port := 5, PID := 7 },
   { Process.zero with Port := 1, PID := 8 }, { Process.zero with Port := 2, PID := 9 },
   { Process.zero with Port := 1, PID := 10 }, { Process.zero with Port := 5, PID := 11 },
   { Process.zero with Port := 1, PID := 12 }]

/-- Three records with memory 10, 50 and 30 MB (the spec's example). -/
def c7MemInput : List Process :=
  [{ Process.zero with MemoryMB := 10, PID := 1 },
   { Process.zero with MemoryMB := 50, PID := 2 },
   { Process.zero with MemoryMB := 30, PID := 3 }]

/-- Three records with ports 3, 1, 2. -/
def c7MiscInput : List Process :=
  [{ Process.zero with Port := 3, PID := 1 }, { Process.zero with Port := 1, PID := 2 },
   { Process.zero with Port := 2, PID := 3 }]

set_option maxRecDepth 4000 in
/-- **C7**: `SortProcesses` does order records by the selected key —
ascending by port here, descending for `memory` ([10,50,30] ↦ [50,30,10]),
and by port for an unknown or empty field name — but the ordering is *not*
stable: `sort.Slice` is pattern-defeating quicksort, and on the 13-record
input (whose equal-port records appear with PIDs in input order
1,3,8,10,12 / 5,6,9 / 0,2,4,7,11) the equal-key records come out reordered,
e.g. PID 6 before PID 5. -/
theorem c7_sort_not_stable :
    (sortProcesses c7SortInput "port").map Process.Port =
      [1, 1, 1, 1, 1, 2, 2, 2, 5, 5, 5, 5, 5] ∧
    (sortProcesses c7SortInput "port").map Process.PID =
      [8, 1, 12, 3, 10, 6, 5, 9, 0, 7, 4, 11, 2] ∧
    (sortProcesses c7MemInput "memory").map Process.MemoryMB = [50, 30, 10] ∧
    (sortProcesses c7MiscInput "bogus").map Process.Port = [1, 2, 3] ∧
    (sortProcesses c7MiscInput "").map Process.Port = [1, 2, 3] :=
  ⟨by rfl, by rfl, by rfl, by rfl, by rfl⟩

/-- The spec's conjunctive filter predicate over a record: each criterion
applies only when it is set (non-empty string / strictly positive
threshold), and the thresholds are strict lower bounds.  Modelled from the
spec for comparison with the code's `FilterProcesses`. -/
def specFilterCriteria (opts : FilterOptions) (proc : Process) : Prop :=
  (opts.Service ≠ "" →
    (goContains (goToLower proc.ServiceType) (goToLower opts.Service) = true ∨
     goContains (goToLower proc.Command) (goToLower opts.Service) = true)) ∧
  (opts.User ≠ "" → goContains (goToLower proc.User) (goToLower opts.User) = true) ∧
  (0 < opts.MemoryLimit → opts.MemoryLimit < proc.MemoryMB) ∧
  (0 < opts.CPULimit → opts.CPULimit < proc.CPUPercent)

/-- **C8**: `FilterProcesses(records, criteria)` keeps exactly the records
satisfying the conjunction of the supplied criteria: case-insensitive
substring match of the service criterion against service-type or command,
case-insensitive substring match of the user criterion against the user,
memory strictly greater than the memory threshold, and CPU strictly greater
than the CPU threshold. -/
theorem c8_filter_conjunction :
    ∀ (opts : FilterOptions) (ps : List Process) (r : Process),
      r ∈ filterProcesses ps opts ↔ r ∈ ps ∧ specFilterCriteria opts r := by
  intro opts ps r
  rw [filterProcesses, List.mem_filter]
  refine and_congr_right fun _ => ?_
  unfold matchesFilter specFilterCriteria
  split_ifs with h1 h2 h3 h4
  · simp only [false_iff]
    intro hc
    exact h1.2 (hc.1 h1.1)
  · simp only [false_iff]
    intro hc
    exact h2.2 (hc.2.1 h2.1)
  · simp only [false_iff]
    intro hc
    exact absurd (hc.2.2.1 h3.1) (not_lt.mpr h3.2)
  · simp only [false_iff]
    intro hc
    exact absurd (hc.2.2.2 h4.1) (not_lt.mpr h4.2)
  · simp only [true_iff]
    refine ⟨fun hs => ?_, fun hu => ?_, fun hm => ?_, fun hcpu => ?_⟩
    · exact not_not.mp (not_and.mp h1 hs)
    · exact not_not.mp (not_and.mp h2 hu)
    · exact not_le.mp fun hge => h3 ⟨hm, hge⟩
    · exact not_le.mp fun hge => h4 ⟨hcpu, hge⟩

/-- Witness for C8: a record above a set memory threshold is kept. -/
theorem c8_filter_conjunction_witness :
    ({ Process.zero with MemoryMB := 120 } : Process) ∈
      filterProcesses [{ Process.zero with MemoryMB := 120 }, Process.zero]
        ⟨"", "", 100, 0⟩ :=
  (c8_filter_conjunction ⟨"", "", 100, 0⟩
    [{ Process.zero with MemoryMB := 120 }, Process.zero]
    { Process.zero with MemoryMB := 120 }).mpr
    ⟨by decide, by decide, by decide, by decide, by decide⟩

/-- Go map insert/lookup interaction: looking up after `m[k] = v` yields `v`
at `k` and is unchanged elsewhere. -/
theorem mapLookup_mapInsert (m : List (Int × Option String)) (k : Int)
    (v : Option String) (q : Int) :
    mapLookup (mapInsert m k v) q = if q = k then some v else mapLookup m q := by
  induction m with
  | nil =>
    simp only [mapInsert, mapLookup]
    by_cases h : k = q
    · rw [if_pos h, if_pos h.symm]
    · rw [if_neg h, if_neg (fun hh => h hh.symm)]
  | cons kv rest ih =>
    obtain ⟨k0, v0⟩ := kv
    simp only [mapInsert]
    by_cases h0 : k0 = k
    · rw [if_pos h0]
      subst h0
      simp only [mapLookup]
      by_cases hq : k0 = q
      · rw [if_pos hq, if_pos hq.symm]
      · rw [if_neg hq, if_neg (fun hh => hq hh.symm), if_neg hq]
    · rw [if_neg h0]
      simp only [mapLookup]
      by_cases hq0 : k0 = q
      · rw [if_pos hq0, if_neg (fun hh : q = k => h0 (hq0.trans hh)), if_pos hq0]
      · rw [if_neg hq0, ih]
        by_cases hqk : q = k
        · rw [if_pos hqk, if_pos hqk]
        · rw [if_neg hqk, if_neg hqk, if_neg hq0]

/-- **C9**: `KillProcesses(pids, force)` applies `KillProcess` independently
to each PID and returns a map with one entry per given PID: the entry for a
listed PID is exactly that PID's own `KillProcess` result (`some msg` for a
failure, `none` for success) whatever the results for the other PIDs, no
failures are aggregated, and unlisted PIDs have no entry. -/
theorem c9_kill_many :
    (∀ (kill : Int → Bool → Option String) (pids : List Int) (force : Bool) (pid : Int),
      mapLookup (killProcesses kill pids force) pid =
        if pid ∈ pids then some (kill pid force) else none) ∧
    killProcesses (fun p _ => if p = 2 then some "no such process" else none) [1, 2]
      false = [(1, none), (2, some "no such process")] := by
  refine ⟨?_, by rfl⟩
  intro kill pids force
  induction pids using List.reverseRecOn with
  | nil => intro pid; simp [killProcesses, mapLookup]
  | append_singleton l a ih =>
    intro pid
    have hstep : killProcesses kill (l ++ [a]) force =
        mapInsert (killProcesses kill l force) a (kill a force) := by
      simp [killProcesses, List.foldl_append]
    rw [hstep, mapLookup_mapInsert, ih]
    by_cases hpa : pid = a
    · subst hpa
      simp
    · by_cases hpl : pid ∈ l
      · simp [hpa, hpl]
      · simp [hpa, hpl]
